import Mathlib

/-!
Verification of the freehand-annotation engine of the `mynotepad`
application (a PDF note-taking and sketching app) against its
natural-language specification.

The development shallowly embeds the relevant TypeScript sources:

* `src/components/DrawingCanvas.tsx` — stroke capture, the per-style
  stroke renderers (writing, ballpoint, pencil, ...) and eraser
  hit-testing;
* `src/utils/shapeRecognition.ts` — the shape classifier
  (line / circle / rectangle / arrow);
* `src/utils/pdfExport.ts` — the export compositor that rasterizes
  per-page stroke lists onto the PDF pages;
* `src/App.tsx` — the per-page annotation store with its linear
  undo/redo history, and the save-PDF handler;
* `src/utils/sketchStorage.ts` — the sketch interchange import.

JavaScript numbers are idealized as real numbers; canvas 2D context
calls are embedded as traces of draw commands (`InkOp`); `Math.random`
is modelled by an explicit stream of values consumed in call order.
-/

noncomputable section

open Classical

namespace MyNotepad

/-- A point `{x, y}` in document-native units (DrawingCanvas.tsx). -/
structure Point where
  x : ℝ
  y : ℝ


/-- The drawing tool of a stroke: `'pen' | 'eraser'`. -/
inductive Tool where
  | pen
  | eraser
deriving DecidableEq

/-- `PenStyle` from DrawingCanvas.tsx. -/
inductive PenStyle where
  | writing
  | drawing
  | calligraphy
  | fountain
  | ballpoint
  | brush
  | pencil
  | highlighter
deriving DecidableEq

/-- `DrawingPath` from DrawingCanvas.tsx: one committed or in-progress
stroke.  Optional fields are `Option`-valued exactly where the
TypeScript interface marks them `?`. -/
structure DrawingPath where
  id : String
  points : List Point
  color : String
  size : ℝ
  tool : Tool
  penStyle : Option PenStyle
  opacity : Option ℝ
  pressure : Option (List ℝ)

/-- JavaScript `v || 1` for an optional number: `undefined` and the
falsy value `0` fall back to `1` (used by `path.opacity || 1`). -/
def jsOrOne (o : Option ℝ) : ℝ :=
  match o with
  | some v => if v = 0 then 1 else v
  | none => 1

/-- JavaScript `v || 0.5` for an optional number: `undefined` and the
falsy value `0` fall back to `0.5` (used by `path.pressure?.[i] || 0.5`). -/
def jsOrHalf (o : Option ℝ) : ℝ :=
  match o with
  | some v => if v = 0 then 0.5 else v
  | none => 0.5

/-! ## The annotation store history (App.tsx)

`App.tsx` keeps, for the active page, the live stroke list
`drawingPaths`, the snapshot list `history` and the cursor
`historyIndex`.  The initial state is `history = [[]]`,
`historyIndex = 0`, `drawingPaths = []`.  The state logic is generic
list manipulation, so it is embedded polymorphically in the stroke
type `α` (the app instantiates `α := DrawingPath`). -/

/-- The history-related slice of the `App` component state. -/
structure HistoryState (α : Type*) where
  history : List (List α)
  historyIndex : ℕ
  drawingPaths : List α
deriving DecidableEq

/-- The initial page state of `App.tsx`:
`useState<DrawingPath[][]>([[]])`, `useState(0)`, `useState([])`. -/
def initialHistoryState (α : Type*) : HistoryState α :=
  { history := [[]], historyIndex := 0, drawingPaths := [] }

/-- One committed mutation: `setDrawingPaths(newPaths)` followed by
`saveToHistory(newPaths)` (App.tsx).  `saveToHistory` truncates the
snapshots strictly after the cursor (`history.slice(0, historyIndex + 1)`),
appends the new snapshot and moves the cursor to the last entry. -/
def commit {α : Type*} (s : HistoryState α) (paths : List α) : HistoryState α :=
  let newHistory := s.history.take (s.historyIndex + 1) ++ [paths]
  { history := newHistory
    historyIndex := newHistory.length - 1
    drawingPaths := paths }

/-- `undo` from App.tsx: if `historyIndex > 0`, decrement the cursor and
load that snapshot into `drawingPaths`; otherwise do nothing. -/
def undo {α : Type*} (s : HistoryState α) : HistoryState α :=
  if 0 < s.historyIndex then
    let newIndex := s.historyIndex - 1
    { s with historyIndex := newIndex, drawingPaths := s.history.getD newIndex [] }
  else s

/-- `redo` from App.tsx: if `historyIndex < history.length - 1`,
increment the cursor and load that snapshot; otherwise do nothing. -/
def redo {α : Type*} (s : HistoryState α) : HistoryState α :=
  if s.historyIndex < s.history.length - 1 then
    let newIndex := s.historyIndex + 1
    { s with historyIndex := newIndex, drawingPaths := s.history.getD newIndex [] }
  else s

/-- A sequence of commits applied in order. -/
def commitAll {α : Type*} (s : HistoryState α) (cs : List (List α)) : HistoryState α :=
  cs.foldl commit s

/-- `getLastD` steps over a cons. -/
lemma getLastD_cons' {β : Type*} (b a : β) (l : List β) :
    (b :: l).getLastD a = l.getLastD b := by
  cases l with
  | nil => rfl
  | cons c l =>
    obtain ⟨x, hx⟩ := Option.isSome_iff_exists.mp
      (by simp [List.getLast?_isSome] : (c :: l).getLast?.isSome)
    simp [List.getLastD_eq_getLast?, List.getLast?_cons_cons, hx]

/-- Indexing a list at `length - 1` after a cons is its last element. -/
lemma getD_length_eq_getLastD {β : Type*} (l : List β) (a d : β) :
    (a :: l).getD l.length d = l.getLastD a := by
  induction l generalizing a with
  | nil => rfl
  | cons b l ih =>
    rw [List.length_cons, List.getD_cons_succ, ih b, getLastD_cons']

/-- Closed form of a run of commits starting from a "tip" state (cursor on
the last snapshot): the history is extended by the commits, the cursor
lands on the last snapshot and the live paths are the last commit. -/
lemma commitAll_tip {α : Type*} (cs : List (List α)) (H : List (List α))
    (p : List α) (hH : H ≠ []) :
    commitAll ⟨H, H.length - 1, p⟩ cs =
      ⟨H ++ cs, (H ++ cs).length - 1, cs.getLastD p⟩ := by
  induction cs generalizing H p with
  | nil => simp [commitAll]
  | cons c cs ih =>
    have hlen : H.length - 1 + 1 = H.length := Nat.succ_pred_eq_of_pos (List.length_pos.mpr hH)
    have hcommit : commit (⟨H, H.length - 1, p⟩ : HistoryState α) c =
        ⟨H ++ [c], (H ++ [c]).length - 1, c⟩ := by
      simp [commit, hlen, List.take_length]
    have hrec := ih (H ++ [c]) c (by simp)
    simp only [commitAll] at hrec ⊢
    rw [List.foldl_cons, hcommit, hrec, List.append_assoc, List.singleton_append,
      getLastD_cons']

/-- The state reached from the initial empty page by a sequence of commits. -/
lemma commitAll_initial {α : Type*} (cs : List (List α)) :
    commitAll (initialHistoryState α) cs =
      ⟨[] :: cs, cs.length, cs.getLastD []⟩ := by
  simpa [initialHistoryState] using commitAll_tip cs [[]] [] (by simp)

/-- Iterating `undo` from an "aligned" state (live paths match the cursor
snapshot) moves the cursor down and keeps it aligned. -/
lemma undo_iter {α : Type*} (H : List (List α)) :
    ∀ k i, k ≤ i →
      undo^[k] ⟨H, i, H.getD i []⟩ = ⟨H, i - k, H.getD (i - k) []⟩ := by
  intro k
  induction k with
  | zero => intro i _; simp
  | succ k ih =>
    intro i hk
    have hi : 0 < i := Nat.lt_of_lt_of_le (Nat.succ_pos k) hk
    have hstep : undo (⟨H, i, H.getD i []⟩ : HistoryState α) =
        ⟨H, i - 1, H.getD (i - 1) []⟩ := by
      simp [undo, hi]
    rw [Function.iterate_succ_apply, hstep, ih (i - 1) (by omega)]
    have h2 : i - 1 - k = i - (k + 1) := by omega
    rw [h2]

/-- Iterating `redo` from an aligned state moves the cursor up and keeps it
aligned, as long as it stays within the history. -/
lemma redo_iter {α : Type*} (H : List (List α)) :
    ∀ k i, i + k ≤ H.length - 1 →
      redo^[k] ⟨H, i, H.getD i []⟩ = ⟨H, i + k, H.getD (i + k) []⟩ := by
  intro k
  induction k with
  | zero => intro i _; simp
  | succ k ih =>
    intro i hk
    have hi : i < H.length - 1 := by omega
    have hstep : redo (⟨H, i, H.getD i []⟩ : HistoryState α) =
        ⟨H, i + 1, H.getD (i + 1) []⟩ := by
      simp [redo, hi]
    rw [Function.iterate_succ_apply, hstep, ih (i + 1) (by omega)]
    have h2 : i + 1 + k = i + (k + 1) := by omega
    rw [h2]

/-- `undo` at cursor 0 is a no-op. -/
lemma undo_at_zero {α : Type*} (t : HistoryState α) (h : t.historyIndex = 0) :
    undo t = t := by
  simp [undo, h]

/-- `redo` with the cursor on the last snapshot is a no-op. -/
lemma redo_at_last {α : Type*} (t : HistoryState α)
    (h : t.historyIndex = t.history.length - 1) : redo t = t := by
  simp [redo, h]

/-- After any commit the cursor is on the last snapshot, so `redo` is a
no-op: committing discards the redo state. -/
lemma redo_commit {α : Type*} (t : HistoryState α) (l : List α) :
    redo (commit t l) = commit t l := by
  apply redo_at_last
  simp [commit]

/-- C1: Starting from an empty page, for every sequence of N stroke commits
(each commit appends the new stroke list to the history and sets the cursor
to the last entry, truncating any entries after the cursor first), calling
`undo` N times returns the page's stroke list to its initial empty state;
calling `redo` N times after that restores the state after the Nth commit;
a new commit issued after one `undo` discards the previously-available redo
state (`redo` after it is a no-op); and `undo` at cursor 0, or `redo` at
the last snapshot, is a no-op. -/
theorem claim_C1_undo_redo {α : Type*} (cs : List (List α)) :
    ((undo^[cs.length] (commitAll (initialHistoryState α) cs)).drawingPaths = []
      ∧ redo^[cs.length] (undo^[cs.length] (commitAll (initialHistoryState α) cs)) =
          commitAll (initialHistoryState α) cs)
    ∧ (∀ l, redo (commit (undo (commitAll (initialHistoryState α) cs)) l) =
        commit (undo (commitAll (initialHistoryState α) cs)) l)
    ∧ (∀ t : HistoryState α, t.historyIndex = 0 → undo t = t)
    ∧ (∀ t : HistoryState α, t.historyIndex = t.history.length - 1 → redo t = t) := by
  have hstate : commitAll (initialHistoryState α) cs =
      ⟨[] :: cs, cs.length, ([] :: cs).getD cs.length []⟩ := by
    rw [commitAll_initial, getD_length_eq_getLastD]
  have hundo : undo^[cs.length] (commitAll (initialHistoryState α) cs) =
      ⟨[] :: cs, 0, []⟩ := by
    rw [hstate, undo_iter ([] :: cs) cs.length cs.length le_rfl]
    simp
  refine ⟨⟨?_, ?_⟩, fun l => redo_commit _ l, fun t h => undo_at_zero t h,
    fun t h => redo_at_last t h⟩
  · rw [hundo]
  · rw [hundo, hstate]
    have hredo := redo_iter ([] :: cs) cs.length 0 (by simp)
    simpa using hredo

/-- Witness for C1 at a concrete run of two commits over strokes `ℕ`. -/
theorem claim_C1_undo_redo_witness :
    ((undo^[2] (commitAll (initialHistoryState ℕ) [[1], [1, 2]])).drawingPaths = []
      ∧ redo^[2] (undo^[2] (commitAll (initialHistoryState ℕ) [[1], [1, 2]])) =
          commitAll (initialHistoryState ℕ) [[1], [1, 2]])
    ∧ redo (commit (undo (commitAll (initialHistoryState ℕ) [[1], [1, 2]])) [7]) =
        commit (undo (commitAll (initialHistoryState ℕ) [[1], [1, 2]])) [7]
    ∧ undo (initialHistoryState ℕ) = initialHistoryState ℕ
    ∧ redo (initialHistoryState ℕ) = initialHistoryState ℕ := by
  obtain ⟨h1, h2, h3, h4⟩ := claim_C1_undo_redo (α := ℕ) [[1], [1, 2]]
  exact ⟨h1, h2 [7], h3 _ rfl, h4 _ (by simp [initialHistoryState])⟩

/-! ## Shape recognition (shapeRecognition.ts) -/

/-- `ShapeType` from shapeRecognition.ts. -/
inductive ShapeType where
  | line
  | circle
  | rectangle
  | arrow
  | none
deriving DecidableEq

/-- `RecognizedShape` from shapeRecognition.ts. -/
structure RecognizedShape where
  type : ShapeType
  confidence : ℝ
  points : List Point

/-- `distance` from shapeRecognition.ts: Euclidean distance. -/
def distance (p1 p2 : Point) : ℝ :=
  Real.sqrt ((p2.x - p1.x) * (p2.x - p1.x) + (p2.y - p1.y) * (p2.y - p1.y))

/-- `pathLength` from shapeRecognition.ts: sum of consecutive distances. -/
def pathLength : List Point → ℝ
  | p :: q :: rest => distance p q + pathLength (q :: rest)
  | _ => 0

/-- `Math.atan2(y, x)`. -/
def atan2 (y x : ℝ) : ℝ :=
  if x > 0 then Real.arctan (y / x)
  else if x < 0 ∧ 0 ≤ y then Real.arctan (y / x) + Real.pi
  else if x < 0 ∧ y < 0 then Real.arctan (y / x) - Real.pi
  else if x = 0 ∧ 0 < y then Real.pi / 2
  else if x = 0 ∧ y < 0 then -(Real.pi / 2)
  else 0

/-- `recognizeLine` from shapeRecognition.ts. -/
def recognizeLine (points : List Point) : Option RecognizedShape :=
  if points.length < 2 then Option.none
  else
    let start := points.headD ⟨0, 0⟩
    let pEnd := points.getLastD ⟨0, 0⟩
    let directDistance := distance start pEnd
    let totalLength := pathLength points
    let straightness := directDistance / totalLength
    -- LINE_STRAIGHTNESS_THRESHOLD = 0.15
    if straightness > 1 - 0.15 then
      some ⟨ShapeType.line, straightness, [start, pEnd]⟩
    else Option.none

/-- `recognizeCircle` from shapeRecognition.ts. -/
def recognizeCircle (points : List Point) : Option RecognizedShape :=
  if points.length < 10 then Option.none
  else
    let start := points.headD ⟨0, 0⟩
    let pEnd := points.getLastD ⟨0, 0⟩
    let totalLength := pathLength points
    let closedDistance := distance start pEnd
    if closedDistance > totalLength * 0.15 then Option.none
    else
      let n : ℝ := points.length
      let centerX := (points.map Point.x).sum / n
      let centerY := (points.map Point.y).sum / n
      let center : Point := ⟨centerX, centerY⟩
      let avgRadius := (points.map (fun p => distance p center)).sum / n
      let variance := (points.map (fun p => |distance p center - avgRadius|)).sum / n
      let roundness := 1 - variance / avgRadius
      -- CIRCLE_ROUNDNESS_THRESHOLD = 0.2
      if roundness > 1 - 0.2 then
        some ⟨ShapeType.circle, roundness,
          (List.range (64 + 1)).map (fun i =>
            ⟨center.x + avgRadius * Real.cos ((i : ℝ) / 64 * (2 * Real.pi)),
             center.y + avgRadius * Real.sin ((i : ℝ) / 64 * (2 * Real.pi))⟩)⟩
      else Option.none

/-- One iteration of the corner-detection loop of `recognizeRectangle`
(index `i` runs from 2 to `points.length - 3`). -/
def rectangleCornersStep (points : List Point) (totalLength : ℝ)
    (corners : List Point) (i : ℕ) : List Point :=
  let prev := points.getD (i - 2) ⟨0, 0⟩
  let curr := points.getD i ⟨0, 0⟩
  let next := points.getD (i + 2) ⟨0, 0⟩
  let angle1 := atan2 (curr.y - prev.y) (curr.x - prev.x)
  let angle2 := atan2 (next.y - curr.y) (next.x - curr.x)
  let rawDiff := |angle2 - angle1|
  let angleDiff := if rawDiff > Real.pi then 2 * Real.pi - rawDiff else rawDiff
  -- angleThreshold = PI / 4
  if angleDiff > Real.pi / 4 then
    if ∃ c ∈ corners, distance c curr < totalLength * 0.1 then corners
    else corners ++ [curr]
  else corners

/-- `recognizeRectangle` from shapeRecognition.ts. -/
def recognizeRectangle (points : List Point) : Option RecognizedShape :=
  if points.length < 15 then Option.none
  else
    let start := points.headD ⟨0, 0⟩
    let pEnd := points.getLastD ⟨0, 0⟩
    let totalLength := pathLength points
    let closedDistance := distance start pEnd
    if closedDistance > totalLength * 0.15 then Option.none
    else
      let corners := (List.range' 2 (points.length - 4)).foldl
        (rectangleCornersStep points totalLength) [start]
      if corners.length ≠ 4 then Option.none
      else
        let xs := corners.map Point.x
        let ys := corners.map Point.y
        -- the JS scan is seeded with ±Infinity; over the nonempty corner
        -- list this computes the minimum/maximum coordinate
        let minX := xs.foldl min (xs.headD 0)
        let minY := ys.foldl min (ys.headD 0)
        let maxX := xs.foldl max (xs.headD 0)
        let maxY := ys.foldl max (ys.headD 0)
        some ⟨ShapeType.rectangle, 0.75,
          [⟨minX, minY⟩, ⟨maxX, minY⟩, ⟨maxX, maxY⟩, ⟨minX, maxY⟩, ⟨minX, minY⟩]⟩

/-- `recognizeArrow` from shapeRecognition.ts. -/
def recognizeArrow (points : List Point) : Option RecognizedShape :=
  if points.length < 8 then Option.none
  else
    -- Math.floor(points.length * 0.7)
    let linePartEnd := points.length * 7 / 10
    let linePart := points.take linePartEnd
    match recognizeLine linePart with
    | Option.none => Option.none
    | some lineResult =>
      if lineResult.confidence < 0.8 then Option.none
      else
        let headPart := points.drop linePartEnd
        if headPart.length < 3 then Option.none
        else
          let lineEnd := linePart.getLastD ⟨0, 0⟩
          let headStart := headPart.headD ⟨0, 0⟩
          if distance lineEnd headStart > pathLength linePart * 0.1 then Option.none
          else
            let start := lineResult.points.getD 0 ⟨0, 0⟩
            let pEnd := lineResult.points.getD 1 ⟨0, 0⟩
            let dx := pEnd.x - start.x
            let dy := pEnd.y - start.y
            let angle := atan2 dy dx
            let arrowLength := distance start pEnd
            let headLength := arrowLength * 0.2
            some ⟨ShapeType.arrow, 0.75,
              [start, pEnd,
               ⟨pEnd.x - headLength * Real.cos (angle - Real.pi / 6),
                pEnd.y - headLength * Real.sin (angle - Real.pi / 6)⟩,
               pEnd,
               ⟨pEnd.x - headLength * Real.cos (angle + Real.pi / 6),
                pEnd.y - headLength * Real.sin (angle + Real.pi / 6)⟩]⟩

/-- JavaScript truthy-and-threshold test `result && result.confidence > t`
used by `recognizeShape` on each sub-recognizer's output. -/
def passes (o : Option RecognizedShape) (threshold : ℝ) : Prop :=
  match o with
  | some r => r.confidence > threshold
  | Option.none => False

/-- `recognizeShape` from shapeRecognition.ts: the classifier cascade. -/
def recognizeShape (path : DrawingPath) : Option RecognizedShape :=
  -- MIN_POINTS = 5
  if path.points.length < 5 then Option.none
  else
    let points := path.points
    let lineResult := recognizeLine points
    if passes lineResult 0.8 then lineResult
    else
      let circleResult := recognizeCircle points
      if passes circleResult 0.7 then circleResult
      else
        let rectangleResult := recognizeRectangle points
        if passes rectangleResult 0.7 then rectangleResult
        else
          let arrowResult := recognizeArrow points
          if passes arrowResult 0.75 then arrowResult
          else Option.none

/-- `recognizeLine` as an explicit conditional, once the length guard holds. -/
lemma recognizeLine_eq (pts : List Point) (h2 : 2 ≤ pts.length) :
    recognizeLine pts =
      if distance (pts.headD ⟨0, 0⟩) (pts.getLastD ⟨0, 0⟩) / pathLength pts > 1 - 0.15 then
        some ⟨ShapeType.line,
          distance (pts.headD ⟨0, 0⟩) (pts.getLastD ⟨0, 0⟩) / pathLength pts,
          [pts.headD ⟨0, 0⟩, pts.getLastD ⟨0, 0⟩]⟩
      else Option.none := by
  unfold recognizeLine
  rw [if_neg (by omega)]

/-- A result of `recognizeLine` is tagged as a line. -/
lemma recognizeLine_type {pts : List Point} {r : RecognizedShape}
    (h : recognizeLine pts = some r) : r.type = ShapeType.line := by
  simp only [recognizeLine] at h
  split at h
  · exact Option.noConfusion h
  · split at h
    · cases Option.some.inj h
      rfl
    · exact Option.noConfusion h

/-- A result of `recognizeCircle` is tagged as a circle. -/
lemma recognizeCircle_type {pts : List Point} {r : RecognizedShape}
    (h : recognizeCircle pts = some r) : r.type = ShapeType.circle := by
  simp only [recognizeCircle] at h
  split at h
  · exact Option.noConfusion h
  · split at h
    · exact Option.noConfusion h
    · split at h
      · cases Option.some.inj h
        rfl
      · exact Option.noConfusion h

/-- A result of `recognizeRectangle` is tagged as a rectangle. -/
lemma recognizeRectangle_type {pts : List Point} {r : RecognizedShape}
    (h : recognizeRectangle pts = some r) : r.type = ShapeType.rectangle := by
  simp only [recognizeRectangle] at h
  split at h
  · exact Option.noConfusion h
  · split at h
    · exact Option.noConfusion h
    · split at h
      · exact Option.noConfusion h
      · cases Option.some.inj h
        rfl

/-- Every result of `recognizeArrow` carries the fixed confidence 0.75 and
the arrow tag. -/
lemma recognizeArrow_conf {pts : List Point} {a : RecognizedShape}
    (h : recognizeArrow pts = some a) :
    a.confidence = 0.75 ∧ a.type = ShapeType.arrow := by
  simp only [recognizeArrow] at h
  split at h
  · exact Option.noConfusion h
  · split at h
    · exact Option.noConfusion h
    · rename_i lineResult heq
      split at h
      · exact Option.noConfusion h
      · split at h
        · exact Option.noConfusion h
        · split at h
          · exact Option.noConfusion h
          · cases Option.some.inj h
            exact ⟨rfl, rfl⟩

/-- Case analysis on the classifier cascade: a returned shape comes from
exactly one sub-recognizer, together with its acceptance threshold. -/
lemma recognizeShape_cases (path : DrawingPath) (r : RecognizedShape)
    (h : recognizeShape path = some r) :
    (recognizeLine path.points = some r ∧ r.confidence > 0.8)
    ∨ (recognizeCircle path.points = some r ∧ r.confidence > 0.7)
    ∨ (recognizeRectangle path.points = some r ∧ r.confidence > 0.7)
    ∨ (recognizeArrow path.points = some r ∧ r.confidence > 0.75) := by
  unfold recognizeShape at h
  by_cases hlen : path.points.length < 5
  · rw [if_pos hlen] at h
    exact Option.noConfusion h
  · rw [if_neg hlen] at h
    by_cases hl : passes (recognizeLine path.points) 0.8
    · rw [if_pos hl] at h
      rw [h] at hl
      exact Or.inl ⟨h, hl⟩
    · rw [if_neg hl] at h
      by_cases hc : passes (recognizeCircle path.points) 0.7
      · rw [if_pos hc] at h
        rw [h] at hc
        exact Or.inr (Or.inl ⟨h, hc⟩)
      · rw [if_neg hc] at h
        by_cases hrect : passes (recognizeRectangle path.points) 0.7
        · rw [if_pos hrect] at h
          rw [h] at hrect
          exact Or.inr (Or.inr (Or.inl ⟨h, hrect⟩))
        · rw [if_neg hrect] at h
          by_cases ha : passes (recognizeArrow path.points) 0.75
          · rw [if_pos ha] at h
            rw [h] at ha
            exact Or.inr (Or.inr (Or.inr ⟨h, ha⟩))
          · rw [if_neg ha] at h
            exact Option.noConfusion h

/-- If the line sub-recognizer fires with confidence above 0.8, the
cascade returns its result (the line short-circuits all later rules). -/
lemma recognizeShape_line_accept {path : DrawingPath} {r : RecognizedShape}
    (h5 : ¬ path.points.length < 5)
    (hl : recognizeLine path.points = some r) (hc : r.confidence > 0.8) :
    recognizeShape path = some r := by
  unfold recognizeShape
  rw [if_neg h5, if_pos (by rw [hl]; exact hc), hl]

/-- C4: For every stroke with at least 5 points, the classifier returns a
line result exactly when `straightness = directDistance(first, last) /
totalPathLength` exceeds 0.85; in that case the returned confidence equals
the straightness ratio and the canonical points are exactly
`[first point, last point]`; the line result is accepted at the classifier
level only if its confidence exceeds 0.8 (and, conversely, such a result is
then returned by the classifier). -/
theorem claim_C4_line_classifier (path : DrawingPath)
    (h5 : 5 ≤ path.points.length) :
    ((recognizeLine path.points).isSome ↔
      distance (path.points.headD ⟨0, 0⟩) (path.points.getLastD ⟨0, 0⟩) /
        pathLength path.points > 0.85)
    ∧ (∀ r, recognizeLine path.points = some r →
        r.confidence =
          distance (path.points.headD ⟨0, 0⟩) (path.points.getLastD ⟨0, 0⟩) /
            pathLength path.points
        ∧ r.points = [path.points.headD ⟨0, 0⟩, path.points.getLastD ⟨0, 0⟩]
        ∧ r.type = ShapeType.line)
    ∧ (∀ r, recognizeShape path = some r → r.type = ShapeType.line →
        recognizeLine path.points = some r ∧ r.confidence > 0.8)
    ∧ (∀ r, recognizeLine path.points = some r → r.confidence > 0.8 →
        recognizeShape path = some r) := by
  have h015 : (1 : ℝ) - 0.15 = 0.85 := by norm_num
  have heq := recognizeLine_eq path.points (by omega)
  refine ⟨?_, ?_, ?_, ?_⟩
  · rw [heq, h015]
    split
    next hcond => exact iff_of_true rfl hcond
    next hcond => exact iff_of_false (by simp) hcond
  · intro r hr
    rw [heq] at hr
    split at hr
    · cases Option.some.inj hr
      exact ⟨rfl, rfl, rfl⟩
    · exact Option.noConfusion hr
  · intro r hshape htype
    rcases recognizeShape_cases path r hshape with ⟨hl, hconf⟩ | ⟨hc, _⟩ | ⟨hrect, _⟩ | ⟨ha, _⟩
    · exact ⟨hl, hconf⟩
    · rw [recognizeCircle_type hc] at htype
      exact absurd htype (by intro hEq; exact ShapeType.noConfusion hEq)
    · rw [recognizeRectangle_type hrect] at htype
      exact absurd htype (by intro hEq; exact ShapeType.noConfusion hEq)
    · rw [(recognizeArrow_conf ha).2] at htype
      exact absurd htype (by intro hEq; exact ShapeType.noConfusion hEq)
  · intro r hr hconf
    exact recognizeShape_line_accept (by omega) hr hconf

/-- C10: The shape classifier never returns an arrow result: `recognizeArrow`
always reports the fixed confidence 0.75, which can never satisfy the strict
top-level acceptance condition `confidence > 0.75`, so an arrow replacement
is never applied to any stroke. -/
theorem claim_C10_arrow_never_accepted :
    (∀ pts : List Point, recognizeArrow pts = Option.none
        ∨ ∃ a, recognizeArrow pts = some a ∧ a.confidence = 0.75)
    ∧ (∀ (path : DrawingPath) (r : RecognizedShape),
        recognizeShape path = some r → r.type ≠ ShapeType.arrow) := by
  constructor
  · intro pts
    cases harrow : recognizeArrow pts with
    | none => exact Or.inl rfl
    | some a => exact Or.inr ⟨a, rfl, (recognizeArrow_conf harrow).1⟩
  · intro path r h htype
    rcases recognizeShape_cases path r h with ⟨hl, _⟩ | ⟨hc, _⟩ | ⟨hrect, _⟩ | ⟨ha, hconf⟩
    · rw [recognizeLine_type hl] at htype
      exact ShapeType.noConfusion htype
    · rw [recognizeCircle_type hc] at htype
      exact ShapeType.noConfusion htype
    · rw [recognizeRectangle_type hrect] at htype
      exact ShapeType.noConfusion htype
    · rw [(recognizeArrow_conf ha).1] at hconf
      exact absurd hconf (by norm_num)

/-! ### Concrete evaluation of the classifier on a 5-point collinear stroke -/

/-- Five collinear sample points on the x-axis. -/
def samplePts : List Point := [⟨0, 0⟩, ⟨1, 0⟩, ⟨2, 0⟩, ⟨3, 0⟩, ⟨4, 0⟩]

/-- A sample pen stroke through `samplePts`. -/
def samplePath : DrawingPath :=
  { id := "path_1", points := samplePts, color := "#000000", size := 2,
    tool := Tool.pen, penStyle := some PenStyle.writing, opacity := some 1,
    pressure := Option.none }

/-- Distance between two points on a horizontal line. -/
lemma distance_horiz (a b y : ℝ) : distance ⟨a, y⟩ ⟨b, y⟩ = |b - a| := by
  have h : (b - a) * (b - a) + (y - y) * (y - y) = (b - a) ^ 2 := by ring
  rw [distance]
  dsimp only
  rw [h, Real.sqrt_sq_eq_abs]

/-- The sample stroke has total path length 4. -/
lemma pathLength_sample : pathLength samplePts = 4 := by
  simp only [samplePts, pathLength, distance_horiz]
  norm_num

/-- `recognizeLine` on the sample stroke returns a perfect line. -/
lemma recognizeLine_sample :
    recognizeLine samplePts = some ⟨ShapeType.line, 1, [⟨0, 0⟩, ⟨4, 0⟩]⟩ := by
  have hhead : samplePts.headD ⟨0, 0⟩ = ⟨0, 0⟩ := rfl
  have hlast : samplePts.getLastD ⟨0, 0⟩ = ⟨4, 0⟩ := rfl
  have hd : distance ⟨0, 0⟩ ⟨4, 0⟩ = 4 := by
    rw [distance_horiz]; norm_num
  rw [recognizeLine_eq samplePts (by norm_num [samplePts]), hhead, hlast, hd,
    pathLength_sample]
  rw [if_pos (by norm_num)]
  norm_num

/-- The full cascade on the sample stroke accepts the line. -/
lemma recognizeShape_sample :
    recognizeShape samplePath = some ⟨ShapeType.line, 1, [⟨0, 0⟩, ⟨4, 0⟩]⟩ := by
  exact recognizeShape_line_accept (by norm_num [samplePath, samplePts])
    recognizeLine_sample (by norm_num)

/-- Witness for C4 at the concrete 5-point collinear stroke. -/
theorem claim_C4_line_classifier_witness :
    ((recognizeLine samplePath.points).isSome ↔
      distance (samplePath.points.headD ⟨0, 0⟩) (samplePath.points.getLastD ⟨0, 0⟩) /
        pathLength samplePath.points > 0.85)
    ∧ (∀ r, recognizeLine samplePath.points = some r →
        r.confidence =
          distance (samplePath.points.headD ⟨0, 0⟩) (samplePath.points.getLastD ⟨0, 0⟩) /
            pathLength samplePath.points
        ∧ r.points = [samplePath.points.headD ⟨0, 0⟩, samplePath.points.getLastD ⟨0, 0⟩]
        ∧ r.type = ShapeType.line)
    ∧ (∀ r, recognizeShape samplePath = some r → r.type = ShapeType.line →
        recognizeLine samplePath.points = some r ∧ r.confidence > 0.8)
    ∧ (∀ r, recognizeLine samplePath.points = some r → r.confidence > 0.8 →
        recognizeShape samplePath = some r) :=
  claim_C4_line_classifier samplePath (by norm_num [samplePath, samplePts])

/-- Witness for C10: on the concrete collinear stroke the classifier
returns a line (hence not an arrow), and `recognizeArrow` on the empty
path returns nothing. -/
theorem claim_C10_arrow_never_accepted_witness :
    (recognizeArrow [] = Option.none
      ∨ ∃ a, recognizeArrow [] = some a ∧ a.confidence = 0.75)
    ∧ (⟨ShapeType.line, 1, [⟨0, 0⟩, ⟨4, 0⟩]⟩ : RecognizedShape).type ≠ ShapeType.arrow := by
  obtain ⟨h1, h2⟩ := claim_C10_arrow_never_accepted
  exact ⟨h1 [], h2 samplePath _ recognizeShape_sample⟩

/-! ## Eraser hit-testing (DrawingCanvas.tsx, `handleEraserStart` /
`handleEraserMove`) -/

/-- The per-stroke eraser test: some point of the stroke lies within
`penSize * 3` of the eraser position (DrawingCanvas.tsx):
`path.points.some(p => Math.sqrt((p.x-point.x)^2 + (p.y-point.y)^2) <= penSize * 3)`. -/
def eraserHit (point : Point) (penSize : ℝ) (path : DrawingPath) : Prop :=
  ∃ p ∈ path.points,
    Real.sqrt ((p.x - point.x) ^ 2 + (p.y - point.y) ^ 2) ≤ penSize * 3

/-- `handleEraserStart` / `handleEraserMove` (DrawingCanvas.tsx): the
strokes removed by one eraser sample are exactly those passing
`eraserHit`. -/
def pathsToErase (paths : List DrawingPath) (point : Point) (penSize : ℝ) :
    List DrawingPath :=
  paths.filter fun path => decide (eraserHit point penSize path)

/-- C5: The eraser removes a stroke if and only if at least one of the
stroke's points lies within distance `penSize * 3` of the eraser point; in
particular a stroke with a point at distance exactly `penSize * 3` is
removed, while a stroke whose closest point is at distance
`penSize * 3 + ε` for any `ε > 0` is retained. -/
theorem claim_C5_eraser_radius (paths : List DrawingPath) (point : Point)
    (penSize : ℝ) :
    (∀ path, path ∈ pathsToErase paths point penSize ↔
      path ∈ paths ∧ ∃ p ∈ path.points,
        Real.sqrt ((p.x - point.x) ^ 2 + (p.y - point.y) ^ 2) ≤ penSize * 3)
    ∧ (∀ path ∈ paths, ∀ p ∈ path.points,
        Real.sqrt ((p.x - point.x) ^ 2 + (p.y - point.y) ^ 2) = penSize * 3 →
        path ∈ pathsToErase paths point penSize)
    ∧ (∀ path ∈ paths, ∀ ε : ℝ, 0 < ε →
        (∀ p ∈ path.points, penSize * 3 + ε ≤
          Real.sqrt ((p.x - point.x) ^ 2 + (p.y - point.y) ^ 2)) →
        path ∉ pathsToErase paths point penSize) := by
  have hmem : ∀ path, path ∈ pathsToErase paths point penSize ↔
      path ∈ paths ∧ eraserHit point penSize path := by
    intro path
    simp [pathsToErase, List.mem_filter]
  refine ⟨?_, ?_, ?_⟩
  · intro path
    rw [hmem]
    rfl
  · intro path hpath p hp hdist
    exact (hmem path).mpr ⟨hpath, ⟨p, hp, le_of_eq hdist⟩⟩
  · intro path hpath ε hε hfar hin
    obtain ⟨-, p, hp, hle⟩ := (hmem path).mp hin
    have := hfar p hp
    linarith

/-- A first concrete stroke: one point at distance exactly 3 from the origin. -/
def strokeA : DrawingPath :=
  { id := "path_A", points := [⟨3, 0⟩], color := "#000000", size := 2,
    tool := Tool.pen, penStyle := some PenStyle.writing, opacity := some 1,
    pressure := Option.none }

/-- A second concrete stroke: one point at distance 3.5 from the origin. -/
def strokeB : DrawingPath :=
  { id := "path_B", points := [⟨3.5, 0⟩], color := "#000000", size := 2,
    tool := Tool.pen, penStyle := some PenStyle.writing, opacity := some 1,
    pressure := Option.none }

/-- Witness for C5: with `penSize = 1` and the eraser at the origin, a
stroke with a point at distance exactly 3 is erased and a stroke whose
closest point is at distance 3.5 = 3 + 0.5 is retained. -/
theorem claim_C5_eraser_radius_witness :
    strokeA ∈ pathsToErase [strokeA, strokeB] ⟨0, 0⟩ 1
    ∧ strokeB ∉ pathsToErase [strokeA, strokeB] ⟨0, 0⟩ 1 := by
  obtain ⟨-, h2, h3⟩ := claim_C5_eraser_radius [strokeA, strokeB] ⟨0, 0⟩ 1
  constructor
  · refine h2 strokeA (by simp) ⟨3, 0⟩ (by simp [strokeA]) ?_
    rw [show ((3 : ℝ) - 0) ^ 2 + ((0 : ℝ) - 0) ^ 2 = 3 ^ 2 by norm_num,
      Real.sqrt_sq (by norm_num : (0 : ℝ) ≤ 3)]
    norm_num
  · refine h3 strokeB (by simp) 0.5 (by norm_num) ?_
    intro p hp
    simp only [strokeB] at hp
    rcases List.mem_singleton.mp hp with rfl
    rw [show ((3.5 : ℝ) - 0) ^ 2 + ((0 : ℝ) - 0) ^ 2 = 3.5 ^ 2 by norm_num,
      Real.sqrt_sq (by norm_num : (0 : ℝ) ≤ 3.5)]
    norm_num

/-! ## Stroke capture (DrawingCanvas.tsx, `startDrawing` / `continueDrawing`) -/

/-- The pressure captured from a pointer event: the default is 0.5, and a
reported pressure is used only when it is strictly positive
(`if ('pressure' in event && event.pressure > 0) pressure = event.pressure`). -/
def capturedPressure (eventPressure : Option ℝ) : ℝ :=
  match eventPressure with
  | some p => if p > 0 then p else 0.5
  | Option.none => 0.5

/-- `startDrawing` (DrawingCanvas.tsx): creates the one-point draft stroke
with a one-element pressure array. -/
def startDrawing (point : Point) (eventPressure : Option ℝ) (penColor : String)
    (penSize : ℝ) (tool : Tool) (penStyle : PenStyle) (penOpacity : ℝ)
    (pid : String) : DrawingPath :=
  { id := pid, points := [point], color := penColor, size := penSize,
    tool := tool, penStyle := some penStyle, opacity := some penOpacity,
    pressure := some [capturedPressure eventPressure] }

/-- `continueDrawing` (DrawingCanvas.tsx), state-update part: a new point
closer than 0.5 to the previous point is discarded; otherwise the point and
its pressure are both appended. -/
def continueDrawing (currentPath : DrawingPath) (point : Point)
    (eventPressure : Option ℝ) : DrawingPath :=
  let lastPoint := currentPath.points.getLastD ⟨0, 0⟩
  let d := Real.sqrt ((point.x - lastPoint.x) ^ 2 + (point.y - lastPoint.y) ^ 2)
  if d < 0.5 then currentPath
  else
    { currentPath with
        points := currentPath.points ++ [point],
        pressure := some (currentPath.pressure.getD [] ++ [capturedPressure eventPressure]) }

/-- C9: Every stroke-capture operation preserves the invariant
`pressure.length == points.length` whenever the pressure array is present:
`startDrawing` creates a one-point draft with a one-element pressure array,
and `continueDrawing` either appends both a point and a pressure value, or
— when the new point is within the fixed epsilon distance (0.5) of the
previous point — appends neither. -/
theorem claim_C9_pressure_invariant :
    (∀ point evp c s t st o pid,
        (startDrawing point evp c s t st o pid).points = [point]
        ∧ (startDrawing point evp c s t st o pid).pressure =
            some [capturedPressure evp])
    ∧ (∀ cur point evp,
        (continueDrawing cur point evp = cur
          ∧ Real.sqrt ((point.x - (cur.points.getLastD ⟨0, 0⟩).x) ^ 2 +
              (point.y - (cur.points.getLastD ⟨0, 0⟩).y) ^ 2) < 0.5)
        ∨ ((continueDrawing cur point evp).points = cur.points ++ [point]
          ∧ (continueDrawing cur point evp).pressure =
              some (cur.pressure.getD [] ++ [capturedPressure evp])
          ∧ ¬ Real.sqrt ((point.x - (cur.points.getLastD ⟨0, 0⟩).x) ^ 2 +
              (point.y - (cur.points.getLastD ⟨0, 0⟩).y) ^ 2) < 0.5))
    ∧ (∀ cur point evp,
        cur.pressure.isSome →
        (∀ l, cur.pressure = some l → l.length = cur.points.length) →
        (continueDrawing cur point evp).pressure.isSome
        ∧ ∀ l, (continueDrawing cur point evp).pressure = some l →
            l.length = (continueDrawing cur point evp).points.length) := by
  refine ⟨fun point evp c s t st o pid => ⟨rfl, rfl⟩, ?_, ?_⟩
  · intro cur point evp
    simp only [continueDrawing]
    split
    next hlt => exact Or.inl ⟨rfl, hlt⟩
    next hge => exact Or.inr ⟨rfl, rfl, hge⟩
  · intro cur point evp hsome hlen
    obtain ⟨l, hl⟩ := Option.isSome_iff_exists.mp hsome
    simp only [continueDrawing]
    split
    · exact ⟨hsome, hlen⟩
    · refine ⟨rfl, ?_⟩
      intro l2 hl2
      simp only [Option.some.injEq] at hl2
      subst hl2
      simp [hl, hlen l hl]

/-- Witness for C9: starting a draft at the origin and extending it by a
point at distance 1 (not discarded: 1 ≥ 0.5) appends both a point and a
pressure value and preserves the invariant. -/
theorem claim_C9_pressure_invariant_witness :
    ((startDrawing ⟨0, 0⟩ (some 0.7) "#000000" 2 Tool.pen PenStyle.writing 1
        "path_W").points = [(⟨0, 0⟩ : Point)]
      ∧ (startDrawing ⟨0, 0⟩ (some 0.7) "#000000" 2 Tool.pen PenStyle.writing 1
          "path_W").pressure = some [capturedPressure (some 0.7)])
    ∧ ((continueDrawing (startDrawing ⟨0, 0⟩ (some 0.7) "#000000" 2 Tool.pen
          PenStyle.writing 1 "path_W") ⟨1, 0⟩ Option.none).pressure.isSome
      ∧ ∀ l, (continueDrawing (startDrawing ⟨0, 0⟩ (some 0.7) "#000000" 2 Tool.pen
          PenStyle.writing 1 "path_W") ⟨1, 0⟩ Option.none).pressure = some l →
          l.length = (continueDrawing (startDrawing ⟨0, 0⟩ (some 0.7) "#000000" 2
            Tool.pen PenStyle.writing 1 "path_W") ⟨1, 0⟩ Option.none).points.length) := by
  obtain ⟨h1, -, h3⟩ := claim_C9_pressure_invariant
  refine ⟨h1 ⟨0, 0⟩ (some 0.7) "#000000" 2 Tool.pen PenStyle.writing 1 "path_W", ?_⟩
  refine h3 _ ⟨1, 0⟩ Option.none (by simp [startDrawing]) ?_
  intro l hl
  simp only [startDrawing, Option.some.injEq] at hl
  subst hl
  simp [startDrawing]

/-! ## Stroke rendering as draw-command traces

A canvas 2D context call sequence is embedded as a list of `InkOp`
commands: a stroked path (with the line width and global alpha in force
when `stroke()` runs), a filled arc ("dot"), a filled quadrilateral
("ribbon" segment), a filled rectangle, or drawn text.  The `fillText`
constructor exists because the canvas API offers it; whether any renderer
ever emits it is part of what is verified. -/

/-- A path segment following the current point. -/
inductive Seg where
  | lineTo (p : Point)
  | bezierTo (cp1 cp2 p : Point)

/-- One rendered drawing command. -/
inductive InkOp where
  | strokePath (width alpha : ℝ) (start : Point) (segs : List Seg)
  | fillDot (center : Point) (radius alpha : ℝ)
  | fillQuad (a b c d : Point) (alpha : ℝ)
  | fillRect (x y w h alpha : ℝ)
  | fillText (s : String) (x y : ℝ)

/-- The line width a command was stroked with (0 for fill commands). -/
def inkWidth : InkOp → ℝ
  | InkOp.strokePath w _ _ _ => w
  | _ => 0

/-- The global alpha a command was drawn with (0 for text). -/
def inkAlpha : InkOp → ℝ
  | InkOp.strokePath _ a _ _ => a
  | InkOp.fillDot _ _ a => a
  | InkOp.fillQuad _ _ _ _ a => a
  | InkOp.fillRect _ _ _ _ a => a
  | InkOp.fillText _ _ _ => 0

/-- Whether a command draws text. -/
def isTextOp : InkOp → Bool
  | InkOp.fillText _ _ _ => true
  | _ => false

/-- The Catmull-Rom-to-Bezier segment list shared by the smooth renderers
(DrawingCanvas.tsx): for each `i` from 0 to `points.length - 2`, a cubic
segment from `points[i]` to `points[i+1]` with neighbors clamped at the
ends (`Math.max(0, i-1)` and `Math.min(length-1, i+2)`; natural-number
subtraction already truncates at 0). -/
def catmullSegs (pts : List Point) : List Seg :=
  (List.range (pts.length - 1)).map fun i =>
    let p0 := pts.getD (i - 1) ⟨0, 0⟩
    let p1 := pts.getD i ⟨0, 0⟩
    let p2 := pts.getD (i + 1) ⟨0, 0⟩
    let p3 := pts.getD (min (pts.length - 1) (i + 2)) ⟨0, 0⟩
    Seg.bezierTo
      ⟨p1.x + (p2.x - p0.x) / 6, p1.y + (p2.y - p0.y) / 6⟩
      ⟨p2.x - (p3.x - p1.x) / 6, p2.y - (p3.y - p1.y) / 6⟩
      p2

/-- `drawWritingPath` (DrawingCanvas.tsx): the writing style renderer.
`a0` is the global alpha in force when the renderer runs (`drawPath` sets
it to `path.opacity ?? 1`).  Exactly two points yield a single straight
segment; otherwise the Catmull-Rom backbone is stroked. -/
def drawWritingPath (a0 : ℝ) (path : DrawingPath) : List InkOp :=
  if path.points.length = 2 then
    [InkOp.strokePath path.size a0 (path.points.headD ⟨0, 0⟩)
      [Seg.lineTo (path.points.getD 1 ⟨0, 0⟩)]]
  else
    [InkOp.strokePath path.size a0 (path.points.headD ⟨0, 0⟩)
      (catmullSegs path.points)]

/-- Scaling a point by `(scaleX, scaleY)`. -/
def scalePoint (sx sy : ℝ) (p : Point) : Point :=
  ⟨p.x * sx, p.y * sy⟩

/-- The Catmull-Rom segment list of `drawWritingPathToPDF` (pdfExport.ts):
the control points are computed in document units and then multiplied by
`(scaleX, scaleY)`. -/
def catmullSegsScaled (sx sy : ℝ) (pts : List Point) : List Seg :=
  (List.range (pts.length - 1)).map fun i =>
    let p0 := pts.getD (i - 1) ⟨0, 0⟩
    let p1 := pts.getD i ⟨0, 0⟩
    let p2 := pts.getD (i + 1) ⟨0, 0⟩
    let p3 := pts.getD (min (pts.length - 1) (i + 2)) ⟨0, 0⟩
    Seg.bezierTo
      ⟨(p1.x + (p2.x - p0.x) / 6) * sx, (p1.y + (p2.y - p0.y) / 6) * sy⟩
      ⟨(p2.x - (p3.x - p1.x) / 6) * sx, (p2.y - (p3.y - p1.y) / 6) * sy⟩
      ⟨p2.x * sx, p2.y * sy⟩

/-- `drawWritingPathToPDF` (pdfExport.ts): the export-side writing
renderer; widths are scaled by `min scaleX scaleY`, coordinates by
`(scaleX, scaleY)`; the export context keeps the default alpha 1. -/
def drawWritingPathToPDF (sx sy : ℝ) (path : DrawingPath) : List InkOp :=
  if path.points.length = 2 then
    [InkOp.strokePath (path.size * min sx sy) 1
      (scalePoint sx sy (path.points.headD ⟨0, 0⟩))
      [Seg.lineTo (scalePoint sx sy (path.points.getD 1 ⟨0, 0⟩))]]
  else
    [InkOp.strokePath (path.size * min sx sy) 1
      (scalePoint sx sy (path.points.headD ⟨0, 0⟩))
      (catmullSegsScaled sx sy path.points)]

/-- Scaling a path segment. -/
def scaleSeg (sx sy : ℝ) : Seg → Seg
  | Seg.lineTo p => Seg.lineTo (scalePoint sx sy p)
  | Seg.bezierTo c1 c2 p =>
      Seg.bezierTo (scalePoint sx sy c1) (scalePoint sx sy c2) (scalePoint sx sy p)

/-- Scaling a stroked command the way the export compositor does: widths
by `min sx sy`, coordinates componentwise. -/
def scaleInk (sx sy : ℝ) : InkOp → InkOp
  | InkOp.strokePath w a st segs =>
      InkOp.strokePath (w * min sx sy) a (scalePoint sx sy st) (segs.map (scaleSeg sx sy))
  | InkOp.fillDot c r a => InkOp.fillDot (scalePoint sx sy c) (r * min sx sy) a
  | InkOp.fillQuad a b c d al =>
      InkOp.fillQuad (scalePoint sx sy a) (scalePoint sx sy b) (scalePoint sx sy c)
        (scalePoint sx sy d) al
  | InkOp.fillRect x y w h a => InkOp.fillRect (x * sx) (y * sy) (w * sx) (h * sy) a
  | InkOp.fillText t x y => InkOp.fillText t (x * sx) (y * sy)

/-- The scaled Catmull-Rom segments are the pointwise scaling of the
unscaled ones: the control-point formula is linear in the points. -/
lemma catmullSegsScaled_eq_map (sx sy : ℝ) (pts : List Point) :
    catmullSegsScaled sx sy pts = (catmullSegs pts).map (scaleSeg sx sy) := by
  simp only [catmullSegsScaled, catmullSegs, List.map_map]
  refine List.map_congr_left fun i _ => ?_
  simp only [Function.comp_apply, scaleSeg, scalePoint]

/-- C3: For every stroke rendered in the writing style: if it has exactly
two points it is drawn as a single straight segment from the first to the
second point; if it has three or more points, each consecutive pair
`p1 = points[i]`, `p2 = points[i+1]` is drawn as a cubic Bezier segment
from `p1` to `p2` with control points `cp1 = p1 + (p2 - p0)/6` and
`cp2 = p2 - (p3 - p1)/6`, where `p0` and `p3` are the neighbors of the
segment, clamped at the sequence ends by repeating the nearest endpoint;
the export-side variant draws the same trace with every coordinate scaled
by `(scaleX, scaleY)` and the width by `min scaleX scaleY`. -/
theorem claim_C3_writing_catmull_rom (a0 sx sy : ℝ) (path : DrawingPath) :
    (path.points.length = 2 →
      drawWritingPath a0 path =
        [InkOp.strokePath path.size a0 (path.points.headD ⟨0, 0⟩)
          [Seg.lineTo (path.points.getD 1 ⟨0, 0⟩)]])
    ∧ (3 ≤ path.points.length →
      drawWritingPath a0 path =
        [InkOp.strokePath path.size a0 (path.points.headD ⟨0, 0⟩)
          (catmullSegs path.points)]
      ∧ ∀ i, i < path.points.length - 1 →
        (catmullSegs path.points).get? i =
          some (Seg.bezierTo
            ⟨(path.points.getD i ⟨0, 0⟩).x +
                ((path.points.getD (i + 1) ⟨0, 0⟩).x -
                  (path.points.getD (i - 1) ⟨0, 0⟩).x) / 6,
             (path.points.getD i ⟨0, 0⟩).y +
                ((path.points.getD (i + 1) ⟨0, 0⟩).y -
                  (path.points.getD (i - 1) ⟨0, 0⟩).y) / 6⟩
            ⟨(path.points.getD (i + 1) ⟨0, 0⟩).x -
                ((path.points.getD (min (path.points.length - 1) (i + 2)) ⟨0, 0⟩).x -
                  (path.points.getD i ⟨0, 0⟩).x) / 6,
             (path.points.getD (i + 1) ⟨0, 0⟩).y -
                ((path.points.getD (min (path.points.length - 1) (i + 2)) ⟨0, 0⟩).y -
                  (path.points.getD i ⟨0, 0⟩).y) / 6⟩
            (path.points.getD (i + 1) ⟨0, 0⟩)))
    ∧ drawWritingPathToPDF sx sy path = (drawWritingPath 1 path).map (scaleInk sx sy) := by
  refine ⟨?_, ?_, ?_⟩
  · intro h2
    simp [drawWritingPath, h2]
  · intro h3
    refine ⟨by simp [drawWritingPath, show path.points.length ≠ 2 by omega], ?_⟩
    intro i hi
    rw [catmullSegs, List.get?_map, List.get?_range hi]
    rfl
  · by_cases h2 : path.points.length = 2
    · simp [drawWritingPath, drawWritingPathToPDF, h2, scaleInk, scaleSeg]
    · simp [drawWritingPath, drawWritingPathToPDF, h2, scaleInk,
        catmullSegsScaled_eq_map]

/-- A concrete four-point writing stroke. -/
def cWritePath4 : DrawingPath :=
  { id := "path_w4", points := [⟨0, 0⟩, ⟨1, 1⟩, ⟨2, 0⟩, ⟨3, 1⟩],
    color := "#000000", size := 2, tool := Tool.pen,
    penStyle := some PenStyle.writing, opacity := some 1,
    pressure := Option.none }

/-- A concrete two-point writing stroke. -/
def cWritePath2 : DrawingPath :=
  { id := "path_w2", points := [⟨0, 0⟩, ⟨5, 5⟩], color := "#000000", size := 2,
    tool := Tool.pen, penStyle := some PenStyle.writing, opacity := some 1,
    pressure := Option.none }

/-- Witness for C3 at concrete two-point and four-point strokes. -/
theorem claim_C3_writing_catmull_rom_witness :
    (drawWritingPath 1 cWritePath2 =
      [InkOp.strokePath cWritePath2.size 1 (cWritePath2.points.headD ⟨0, 0⟩)
        [Seg.lineTo (cWritePath2.points.getD 1 ⟨0, 0⟩)]])
    ∧ (drawWritingPath 1 cWritePath4 =
        [InkOp.strokePath cWritePath4.size 1 (cWritePath4.points.headD ⟨0, 0⟩)
          (catmullSegs cWritePath4.points)]
      ∧ (catmullSegs cWritePath4.points).get? 1 =
          some (Seg.bezierTo
            ⟨(cWritePath4.points.getD 1 ⟨0, 0⟩).x +
                ((cWritePath4.points.getD 2 ⟨0, 0⟩).x -
                  (cWritePath4.points.getD 0 ⟨0, 0⟩).x) / 6,
             (cWritePath4.points.getD 1 ⟨0, 0⟩).y +
                ((cWritePath4.points.getD 2 ⟨0, 0⟩).y -
                  (cWritePath4.points.getD 0 ⟨0, 0⟩).y) / 6⟩
            ⟨(cWritePath4.points.getD 2 ⟨0, 0⟩).x -
                ((cWritePath4.points.getD (min (cWritePath4.points.length - 1) 3) ⟨0, 0⟩).x -
                  (cWritePath4.points.getD 1 ⟨0, 0⟩).x) / 6,
             (cWritePath4.points.getD 2 ⟨0, 0⟩).y -
                ((cWritePath4.points.getD (min (cWritePath4.points.length - 1) 3) ⟨0, 0⟩).y -
                  (cWritePath4.points.getD 1 ⟨0, 0⟩).y) / 6⟩
            (cWritePath4.points.getD 2 ⟨0, 0⟩)))
    ∧ drawWritingPathToPDF 2 3 cWritePath4 =
        (drawWritingPath 1 cWritePath4).map (scaleInk 2 3) := by
  refine ⟨(claim_C3_writing_catmull_rom 1 2 3 cWritePath2).1 (by simp [cWritePath2]),
    ⟨?_, ?_⟩, (claim_C3_writing_catmull_rom 1 2 3 cWritePath4).2.2⟩
  · exact ((claim_C3_writing_catmull_rom 1 2 3 cWritePath4).2.1
      (by simp [cWritePath4])).1
  · exact ((claim_C3_writing_catmull_rom 1 2 3 cWritePath4).2.1
      (by simp [cWritePath4])).2 1 (by simp [cWritePath4])

/-! ## Ballpoint renderer (DrawingCanvas.tsx, `drawBallpointPath`) -/

/-- `drawBallpointPath` (DrawingCanvas.tsx).  `a0` is the global alpha set
by `drawPath` (`path.opacity ?? 1`).  A single point is a filled dot of
radius `size / 2`; otherwise the Catmull-Rom backbone is stroked at width
`path.size` under the ambient alpha, followed by the straight-line texture
pass at width `size * 0.6` and alpha `(path.opacity || 1) * 0.15`. -/
def drawBallpointPath (a0 : ℝ) (path : DrawingPath) : List InkOp :=
  if path.points.length < 1 then []
  else if path.points.length = 1 then
    [InkOp.fillDot (path.points.headD ⟨0, 0⟩) (path.size / 2) a0]
  else
    [InkOp.strokePath path.size a0 (path.points.headD ⟨0, 0⟩)
      (catmullSegs path.points),
     InkOp.strokePath (path.size * 0.6) (jsOrOne path.opacity * 0.15)
      (path.points.headD ⟨0, 0⟩)
      ((path.points.drop 1).map Seg.lineTo)]

/-- A concrete three-point ballpoint stroke of size 10 and default opacity. -/
def cBallPath : DrawingPath :=
  { id := "path_bp", points := [⟨0, 0⟩, ⟨1, 0⟩, ⟨2, 1⟩], color := "#000000",
    size := 10, tool := Tool.pen, penStyle := some PenStyle.ballpoint,
    opacity := Option.none, pressure := Option.none }

/-- Counterexample to C6 as stated: on a concrete 3-point ballpoint stroke
of size 10 the two stroked passes have widths 10 and 6 and alphas 1 and
0.15 — not width `size * 1.1 = 11` at alpha 0.95, and not a second pass at
width `×1.4`/`×1.2` with alpha 0.25. -/
theorem claim_C6_counterexample :
    (drawBallpointPath 1 cBallPath).map inkWidth = [10, 6]
    ∧ (drawBallpointPath 1 cBallPath).map inkAlpha = [1, 0.15]
    ∧ ¬ ((10 : ℝ) = 10 * 1.1) ∧ ¬ ((1 : ℝ) = 0.95)
    ∧ ¬ ((6 : ℝ) = 10 * 1.4) ∧ ¬ ((6 : ℝ) = 10 * 1.2) := by
  refine ⟨?_, ?_, by norm_num, by norm_num, by norm_num, by norm_num⟩
  · simp [drawBallpointPath, cBallPath, inkWidth, jsOrOne]
    norm_num
  · simp [drawBallpointPath, cBallPath, inkAlpha, jsOrOne]

/-- C6 (amended): The ballpoint style renders a multi-point stroke as a
Catmull-Rom smoothed curve at constant width `size` under the stroke's
ambient alpha, plus a second straight-line texture pass at width
`size * 0.6` with alpha `(opacity || 1) * 0.15`; the width does not vary
with pressure (the trace is independent of the pressure array). -/
theorem claim_C6_ballpoint_render (a0 : ℝ) (path : DrawingPath)
    (h2 : 2 ≤ path.points.length) :
    drawBallpointPath a0 path =
      [InkOp.strokePath path.size a0 (path.points.headD ⟨0, 0⟩)
        (catmullSegs path.points),
       InkOp.strokePath (path.size * 0.6) (jsOrOne path.opacity * 0.15)
        (path.points.headD ⟨0, 0⟩)
        ((path.points.drop 1).map Seg.lineTo)]
    ∧ (∀ pr, drawBallpointPath a0
        { path with pressure := pr } = drawBallpointPath a0 path)
    ∧ (drawBallpointPath a0 path).map inkWidth = [path.size, path.size * 0.6] := by
  have hne1 : path.points.length ≠ 1 := by omega
  have hnlt : ¬ path.points.length < 1 := by omega
  refine ⟨by simp [drawBallpointPath, hne1, hnlt], ?_, ?_⟩
  · intro pr
    simp [drawBallpointPath, hne1, hnlt, catmullSegs]
  · simp [drawBallpointPath, hne1, hnlt, inkWidth]

/-- Witness for the amended C6 at the concrete three-point stroke. -/
theorem claim_C6_ballpoint_render_witness :
    drawBallpointPath 1 cBallPath =
      [InkOp.strokePath cBallPath.size 1 (cBallPath.points.headD ⟨0, 0⟩)
        (catmullSegs cBallPath.points),
       InkOp.strokePath (cBallPath.size * 0.6) (jsOrOne cBallPath.opacity * 0.15)
        (cBallPath.points.headD ⟨0, 0⟩)
        ((cBallPath.points.drop 1).map Seg.lineTo)]
    ∧ (∀ pr, drawBallpointPath 1 { cBallPath with pressure := pr } =
        drawBallpointPath 1 cBallPath)
    ∧ (drawBallpointPath 1 cBallPath).map inkWidth =
        [cBallPath.size, cBallPath.size * 0.6] :=
  claim_C6_ballpoint_render 1 cBallPath (by simp [cBallPath])

/-! ## Pencil renderer (DrawingCanvas.tsx, `drawPencilPath`)

`Math.random()` is modelled by a stream `g : ℕ → ℝ` read at an explicit
counter that advances by one per call, in source order: in the grainy-dot
branch each dot consumes one value for its offset and one for its alpha;
in the multi-point branch each (layer, segment) pass consumes one value
for `offsetX` and one for `offsetY`. -/

/-- One grainy dot of the single-point pencil branch, reading the random
stream at `k` (offset) and `k + 1` (alpha). -/
def pencilDotOp (p : Point) (size jsO : ℝ) (g : ℕ → ℝ) (k : ℕ) : InkOp :=
  let offset := (g k - 0.5) * size * 0.3
  InkOp.fillDot ⟨p.x + offset, p.y + offset⟩ (size / 2.5)
    (jsO * (0.3 + g (k + 1) * 0.4))

/-- The `for (let j = 0; j < 5; j++)` dot loop, with `j` dots remaining and
the random counter at `k`. -/
def pencilDotLoop (p : Point) (size jsO : ℝ) (g : ℕ → ℝ) : ℕ → ℕ → List InkOp
  | _, 0 => []
  | k, j + 1 => pencilDotOp p size jsO g k :: pencilDotLoop p size jsO g (k + 2) j

/-- One jittered pass over segment `i` in layer `layer`, reading the random
stream at `k` (`offsetX`) and `k + 1` (`offsetY`). -/
def pencilSegOp (path : DrawingPath) (layer i : ℕ) (g : ℕ → ℝ) (k : ℕ) : InkOp :=
  let p1 := path.points.getD i ⟨0, 0⟩
  let p2 := path.points.getD (i + 1) ⟨0, 0⟩
  let pressure := jsOrHalf (path.pressure.bind fun l => l.get? i)
  let width := path.size * (0.6 + pressure * 0.6) * (0.7 + (layer : ℝ) * 0.15)
  let offsetX := (g k - 0.5) * width * 0.2
  let offsetY := (g (k + 1) - 0.5) * width * 0.2
  InkOp.strokePath width (jsOrOne path.opacity * (0.15 + (layer : ℝ) * 0.15))
    ⟨p1.x + offsetX, p1.y + offsetY⟩
    [Seg.lineTo ⟨p2.x + offsetX, p2.y + offsetY⟩]

/-- The inner `for (let i = 0; ...)` segment loop: current segment `i`,
random counter `k`, `n` segments remaining. -/
def pencilSegLoop (path : DrawingPath) (layer : ℕ) (g : ℕ → ℝ) :
    ℕ → ℕ → ℕ → List InkOp
  | _, _, 0 => []
  | i, k, n + 1 =>
      pencilSegOp path layer i g k :: pencilSegLoop path layer g (i + 1) (k + 2) n

/-- The outer `for (let layer = 0; layer < numLayers; ...)` loop: current
layer, random counter, layers remaining; each layer consumes two random
values per segment. -/
def pencilLayersLoop (path : DrawingPath) (g : ℕ → ℝ) : ℕ → ℕ → ℕ → List InkOp
  | _, _, 0 => []
  | layer, k, m + 1 =>
      pencilSegLoop path layer g 0 k (path.points.length - 1) ++
        pencilLayersLoop path g (layer + 1) (k + 2 * (path.points.length - 1)) m

/-- `drawPencilPath` (DrawingCanvas.tsx): a single point scatters 5 grainy
dots; a multi-point stroke gets `numLayers = 4` jittered passes per
segment. -/
def drawPencilPath (g : ℕ → ℝ) (path : DrawingPath) : List InkOp :=
  if path.points.length < 1 then []
  else if path.points.length = 1 then
    let pressure := jsOrHalf (path.pressure.bind fun l => l.get? 0)
    let size := path.size * (0.6 + pressure * 0.7)
    pencilDotLoop (path.points.headD ⟨0, 0⟩) size (jsOrOne path.opacity) g 0 5
  else pencilLayersLoop path g 0 0 4

/-- Closed form of the dot loop. -/
lemma pencilDotLoop_closed (p : Point) (size jsO : ℝ) (g : ℕ → ℝ) :
    ∀ j k, pencilDotLoop p size jsO g k j =
      (List.range j).map fun t => pencilDotOp p size jsO g (k + 2 * t) := by
  intro j
  induction j with
  | zero => intro k; rfl
  | succ j ih =>
    intro k
    rw [pencilDotLoop, ih (k + 2), List.range_succ_eq_map]
    simp only [List.map_cons, List.map_map, Nat.mul_zero, Nat.add_zero]
    refine congrArg₂ List.cons rfl (List.map_congr_left fun t _ => ?_)
    simp only [Function.comp_apply]
    congr 1
    omega

/-- Closed form of the segment loop. -/
lemma pencilSegLoop_closed (path : DrawingPath) (layer : ℕ) (g : ℕ → ℝ) :
    ∀ n i k, pencilSegLoop path layer g i k n =
      (List.range n).map fun t => pencilSegOp path layer (i + t) g (k + 2 * t) := by
  intro n
  induction n with
  | zero => intro i k; rfl
  | succ n ih =>
    intro i k
    rw [pencilSegLoop, ih (i + 1) (k + 2), List.range_succ_eq_map]
    simp only [List.map_cons, List.map_map, Nat.mul_zero, Nat.add_zero]
    refine congrArg₂ List.cons rfl (List.map_congr_left fun t _ => ?_)
    simp only [Function.comp_apply]
    congr 1 <;> omega

/-- Closed form of the layer loop. -/
lemma pencilLayersLoop_closed (path : DrawingPath) (g : ℕ → ℝ) :
    ∀ m layer k, pencilLayersLoop path g layer k m =
      (List.range m).flatMap fun t =>
        pencilSegLoop path (layer + t) g 0 (k + 2 * (path.points.length - 1) * t)
          (path.points.length - 1) := by
  intro m
  induction m with
  | zero => intro layer k; rfl
  | succ m ih =>
    intro layer k
    rw [pencilLayersLoop, ih (layer + 1) (k + 2 * (path.points.length - 1)),
      List.range_succ_eq_map]
    simp only [List.flatMap_cons, List.flatMap_map, Nat.mul_zero, Nat.add_zero]
    refine congrArg₂ (· ++ ·) rfl (List.flatMap_congr fun t _ => ?_)
    congr 1
    · omega
    · rw [Nat.succ_eq_add_one]
      ring

/-- Closed form of the multi-point pencil render: 4 layers of one jittered
pass per segment, with the random counter advancing two per pass. -/
lemma drawPencilPath_multi (g : ℕ → ℝ) (path : DrawingPath)
    (h2 : 2 ≤ path.points.length) :
    drawPencilPath g path =
      (List.range 4).flatMap fun layer =>
        (List.range (path.points.length - 1)).map fun i =>
          pencilSegOp path layer i g
            (2 * (path.points.length - 1) * layer + 2 * i) := by
  rw [drawPencilPath, if_neg (by omega), if_neg (by omega),
    pencilLayersLoop_closed path g 4 0 0]
  refine List.flatMap_congr fun t _ => ?_
  rw [pencilSegLoop_closed]
  refine List.map_congr_left fun i _ => ?_
  congr 1 <;> omega

/-- Closed form of the single-point pencil render: exactly 5 grainy dots. -/
lemma drawPencilPath_single (g : ℕ → ℝ) (path : DrawingPath)
    (h1 : path.points.length = 1) :
    drawPencilPath g path =
      (List.range 5).map fun j =>
        pencilDotOp (path.points.headD ⟨0, 0⟩)
          (path.size * (0.6 + jsOrHalf (path.pressure.bind fun l => l.get? 0) * 0.7))
          (jsOrOne path.opacity) g (2 * j) := by
  rw [drawPencilPath, if_neg (by omega), if_pos h1]
  rw [pencilDotLoop_closed]
  refine List.map_congr_left fun t _ => ?_
  congr 1
  omega

/-- The alpha of a jittered pencil pass. -/
lemma inkAlpha_pencilSegOp (path : DrawingPath) (layer i : ℕ) (g : ℕ → ℝ) (k : ℕ) :
    inkAlpha (pencilSegOp path layer i g k) =
      jsOrOne path.opacity * (0.15 + (layer : ℝ) * 0.15) := rfl

/-- The width of a jittered pencil pass. -/
lemma inkWidth_pencilSegOp (path : DrawingPath) (layer i : ℕ) (g : ℕ → ℝ) (k : ℕ) :
    inkWidth (pencilSegOp path layer i g k) =
      path.size * (0.6 + jsOrHalf (path.pressure.bind fun l => l.get? i) * 0.6) *
        (0.7 + (layer : ℝ) * 0.15) := rfl

/-- The alpha of a grainy pencil dot. -/
lemma inkAlpha_pencilDotOp (p : Point) (size jsO : ℝ) (g : ℕ → ℝ) (k : ℕ) :
    inkAlpha (pencilDotOp p size jsO g k) = jsO * (0.3 + g (k + 1) * 0.4) := rfl

/-- A concrete single-point pencil stroke. -/
def cPencilDot : DrawingPath :=
  { id := "path_pc1", points := [⟨1, 1⟩], color := "#000000", size := 4,
    tool := Tool.pen, penStyle := some PenStyle.pencil, opacity := Option.none,
    pressure := Option.none }

/-- A concrete three-point pencil stroke. -/
def cPencil3 : DrawingPath :=
  { id := "path_pc3", points := [⟨0, 0⟩, ⟨1, 0⟩, ⟨2, 1⟩], color := "#000000",
    size := 4, tool := Tool.pen, penStyle := some PenStyle.pencil,
    opacity := Option.none, pressure := Option.none }

/-- A concrete random stream. -/
def cg : ℕ → ℝ := fun _ => 0.5

/-- Counterexample to C7 as stated: a concrete single-point pencil stroke
renders exactly 5 grainy dots, not 12. -/
theorem claim_C7_counterexample :
    (drawPencilPath cg cPencilDot).length = 5
    ∧ (drawPencilPath cg cPencilDot).length ≠ 12 := by
  have h : (drawPencilPath cg cPencilDot).length = 5 := by
    rw [drawPencilPath_single cg cPencilDot (by simp [cPencilDot])]
    simp
  exact ⟨h, by rw [h]; norm_num⟩

/-- C7 (amended): The pencil style draws every multi-point stroke as 4
overlaid passes per segment, with per-pass alpha `0.15 + layer * 0.15`
(times `opacity || 1`) and width
`size * (0.6 + 0.6 * pressure) * (0.7 + layer * 0.15)`, each pass drawn
with random positional jitter taken from the random stream; and a
single-point pencil stroke scatters 5 random dots around the center
point, each with alpha `(opacity || 1) * (0.3 + random * 0.4)`. -/
theorem claim_C7_pencil_render (g : ℕ → ℝ) (path : DrawingPath) :
    (2 ≤ path.points.length →
      (drawPencilPath g path).length = 4 * (path.points.length - 1)
      ∧ ∀ op ∈ drawPencilPath g path, ∃ layer < 4, ∃ i < path.points.length - 1,
          op = pencilSegOp path layer i g
              (2 * (path.points.length - 1) * layer + 2 * i)
          ∧ inkAlpha op = jsOrOne path.opacity * (0.15 + (layer : ℝ) * 0.15)
          ∧ inkWidth op = path.size *
              (0.6 + jsOrHalf (path.pressure.bind fun l => l.get? i) * 0.6) *
              (0.7 + (layer : ℝ) * 0.15))
    ∧ (path.points.length = 1 →
      (drawPencilPath g path).length = 5
      ∧ ∀ op ∈ drawPencilPath g path, ∃ j < 5,
          op = pencilDotOp (path.points.headD ⟨0, 0⟩)
            (path.size * (0.6 + jsOrHalf (path.pressure.bind fun l => l.get? 0) * 0.7))
            (jsOrOne path.opacity) g (2 * j)
          ∧ inkAlpha op = jsOrOne path.opacity * (0.3 + g (2 * j + 1) * 0.4)) := by
  constructor
  · intro h2
    constructor
    · rw [drawPencilPath_multi g path h2, List.length_flatMap]
      simp [Function.comp_def]
      omega
    · intro op hop
      rw [drawPencilPath_multi g path h2, List.mem_flatMap] at hop
      obtain ⟨layer, hlayer, hop⟩ := hop
      rw [List.mem_map] at hop
      obtain ⟨i, hi, rfl⟩ := hop
      exact ⟨layer, List.mem_range.mp hlayer, i, List.mem_range.mp hi, rfl,
        inkAlpha_pencilSegOp path layer i g _, inkWidth_pencilSegOp path layer i g _⟩
  · intro h1
    constructor
    · rw [drawPencilPath_single g path h1]
      simp
    · intro op hop
      rw [drawPencilPath_single g path h1, List.mem_map] at hop
      obtain ⟨j, hj, rfl⟩ := hop
      exact ⟨j, List.mem_range.mp hj, rfl, inkAlpha_pencilDotOp _ _ _ g _⟩

/-- Witness for the amended C7 at a concrete three-point stroke and a
concrete single-point stroke. -/
theorem claim_C7_pencil_render_witness :
    ((drawPencilPath cg cPencil3).length = 4 * (cPencil3.points.length - 1)
      ∧ ∀ op ∈ drawPencilPath cg cPencil3, ∃ layer < 4,
          ∃ i < cPencil3.points.length - 1,
          op = pencilSegOp cPencil3 layer i cg
              (2 * (cPencil3.points.length - 1) * layer + 2 * i)
          ∧ inkAlpha op = jsOrOne cPencil3.opacity * (0.15 + (layer : ℝ) * 0.15)
          ∧ inkWidth op = cPencil3.size *
              (0.6 + jsOrHalf (cPencil3.pressure.bind fun l => l.get? i) * 0.6) *
              (0.7 + (layer : ℝ) * 0.15))
    ∧ ((drawPencilPath cg cPencilDot).length = 5
      ∧ ∀ op ∈ drawPencilPath cg cPencilDot, ∃ j < 5,
          op = pencilDotOp (cPencilDot.points.headD ⟨0, 0⟩)
            (cPencilDot.size *
              (0.6 + jsOrHalf (cPencilDot.pressure.bind fun l => l.get? 0) * 0.7))
            (jsOrOne cPencilDot.opacity) cg (2 * j)
          ∧ inkAlpha op = jsOrOne cPencilDot.opacity * (0.3 + cg (2 * j + 1) * 0.4)) :=
  ⟨(claim_C7_pencil_render cg cPencil3).1 (by simp [cPencil3]),
   (claim_C7_pencil_render cg cPencilDot).2 (by simp [cPencilDot])⟩

/-! ## Export compositor (pdfExport.ts, `exportAnnotatedPDF`) and the
save-PDF handler (App.tsx, `handleSavePDF`) -/

/-- A point-anchored text label (`TextAnnotation` interface). -/
structure TextAnnot where
  id : String
  text : String
  x : ℝ
  y : ℝ
  fontSize : ℝ
  color : String
  fontFamily : String

/-- The scaled-with-offset Catmull-Rom segments of `drawDrawingPathToPDF`:
control points are scaled and then shifted by the per-pass `offset`. -/
def catmullSegsScaledOff (sx sy off : ℝ) (pts : List Point) : List Seg :=
  (List.range (pts.length - 1)).map fun i =>
    let p0 := pts.getD (i - 1) ⟨0, 0⟩
    let p1 := pts.getD i ⟨0, 0⟩
    let p2 := pts.getD (i + 1) ⟨0, 0⟩
    let p3 := pts.getD (min (pts.length - 1) (i + 2)) ⟨0, 0⟩
    Seg.bezierTo
      ⟨(p1.x + (p2.x - p0.x) / 6) * sx + off, (p1.y + (p2.y - p0.y) / 6) * sy + off⟩
      ⟨(p2.x - (p3.x - p1.x) / 6) * sx + off, (p2.y - (p3.y - p1.y) / 6) * sy + off⟩
      ⟨p2.x * sx + off, p2.y * sy + off⟩

/-- `drawDrawingPathToPDF` (pdfExport.ts): 3 overlaid passes with per-pass
offset `(s - 1) * 0.3`, width `baseWidth * (0.7 + s * 0.15)` and alpha
`0.4 + s * 0.2`. -/
def drawDrawingPathToPDF (sx sy : ℝ) (path : DrawingPath) : List InkOp :=
  (List.range 3).map fun s =>
    let baseWidth := path.size * min sx sy
    let offset := ((s : ℝ) - 1) * 0.3
    if path.points.length = 2 then
      InkOp.strokePath (baseWidth * (0.7 + (s : ℝ) * 0.15)) (0.4 + (s : ℝ) * 0.2)
        ⟨(path.points.headD ⟨0, 0⟩).x * sx + offset,
         (path.points.headD ⟨0, 0⟩).y * sy + offset⟩
        [Seg.lineTo ⟨(path.points.getD 1 ⟨0, 0⟩).x * sx + offset,
          (path.points.getD 1 ⟨0, 0⟩).y * sy + offset⟩]
    else
      InkOp.strokePath (baseWidth * (0.7 + (s : ℝ) * 0.15)) (0.4 + (s : ℝ) * 0.2)
        ⟨(path.points.headD ⟨0, 0⟩).x * sx + offset,
         (path.points.headD ⟨0, 0⟩).y * sy + offset⟩
        (catmullSegsScaledOff sx sy offset path.points)

/-- The draw commands emitted for segment `i` by `drawCalligraphyPathToPDF`:
a ribbon quadrilateral plus end caps; degenerate segments (length < 0.1)
are skipped. -/
def calligraphySegOps (sx sy : ℝ) (path : DrawingPath) (i : ℕ) : List InkOp :=
  let p1 := path.points.getD i ⟨0, 0⟩
  let p2 := path.points.getD (i + 1) ⟨0, 0⟩
  let dx := p2.x - p1.x
  let dy := p2.y - p1.y
  let dist := Real.sqrt (dx * dx + dy * dy)
  if dist < 0.1 then []
  else
    let angle := atan2 dy dx
    let directionFactor := |Real.sin angle|
    let width := path.size * (0.25 + directionFactor * 0.75) * min sx sy
    let perpAngle := angle + Real.pi / 2
    let perpX := Real.cos perpAngle * width / 2
    let perpY := Real.sin perpAngle * width / 2
    [InkOp.fillQuad ⟨p1.x * sx - perpX, p1.y * sy - perpY⟩
      ⟨p1.x * sx + perpX, p1.y * sy + perpY⟩
      ⟨p2.x * sx + perpX, p2.y * sy + perpY⟩
      ⟨p2.x * sx - perpX, p2.y * sy - perpY⟩ 1,
     InkOp.fillDot ⟨p1.x * sx, p1.y * sy⟩ (width / 2) 1]
    ++ (if i = path.points.length - 2 then
          [InkOp.fillDot ⟨p2.x * sx, p2.y * sy⟩ (width / 2) 1]
        else [])

/-- `drawCalligraphyPathToPDF` (pdfExport.ts). -/
def drawCalligraphyPathToPDF (sx sy : ℝ) (path : DrawingPath) : List InkOp :=
  if path.points.length < 2 then []
  else (List.range (path.points.length - 1)).flatMap (calligraphySegOps sx sy path)

/-- The commands rasterized for one stored stroke by the per-page export
loop of `exportAnnotatedPDF` (pdfExport.ts): single points become dots (or
a rectangle mark for calligraphy), multi-point strokes dispatch on the pen
style; every other style falls back to the writing renderer. -/
def exportPagePath (sx sy : ℝ) (path : DrawingPath) : List InkOp :=
  if path.points.length < 1 then []
  else
    let pathStyle := path.penStyle.getD PenStyle.writing
    if path.points.length = 1 then
      if pathStyle = PenStyle.calligraphy then
        let size := path.size * min sx sy
        [InkOp.fillRect ((path.points.headD ⟨0, 0⟩).x * sx - size / 3)
          ((path.points.headD ⟨0, 0⟩).y * sy - size / 2) (size / 1.5) size 1]
      else
        [InkOp.fillDot ⟨(path.points.headD ⟨0, 0⟩).x * sx,
            (path.points.headD ⟨0, 0⟩).y * sy⟩
          ((path.size * min sx sy) / 2) 1]
    else if pathStyle = PenStyle.calligraphy then drawCalligraphyPathToPDF sx sy path
    else if pathStyle = PenStyle.drawing then drawDrawingPathToPDF sx sy path
    else drawWritingPathToPDF sx sy path

/-- All commands rasterized for one page's stroke list. -/
def exportPagePaths (paths : List DrawingPath) (sx sy : ℝ) : List InkOp :=
  paths.flatMap (exportPagePath sx sy)

/-- `exportAnnotatedPDF` (pdfExport.ts): for each page of the original
document (with native sizes `pageSizes`), look up that page's strokes
(`allPageAnnotations.get(pageNum + 1) || []`), skip pages without strokes,
compute `scaleX = width / pdfDimensions.width` (and `scaleY` likewise) and
rasterize the strokes; the result is the per-page overlay traces.  The
function receives no text annotations at all. -/
def exportAnnotatedPDF (pageSizes : List (ℝ × ℝ))
    (allPageAnnotations : ℕ → List DrawingPath) (pdfW pdfH : ℝ) :
    List (ℕ × List InkOp) :=
  (List.range pageSizes.length).flatMap fun pageNum =>
    let paths := allPageAnnotations (pageNum + 1)
    if paths.length = 0 then []
    else
      let wh := pageSizes.getD pageNum (0, 0)
      let scaleX := wh.1 / pdfW
      let scaleY := wh.2 / pdfH
      [(pageNum + 1, exportPagePaths paths scaleX scaleY)]

/-- The slice of the `App` component state consumed by `handleSavePDF`,
together with the text-annotation state it keeps but does not export. -/
structure AppState where
  currentPage : ℕ
  drawingPaths : List DrawingPath
  allPageAnnotations : ℕ → List DrawingPath
  textAnnots : List TextAnnot
  allPageTextAnnots : ℕ → List TextAnnot
  pdfDimensions : ℝ × ℝ

/-- `handleSavePDF` (App.tsx): builds `finalAnnotations` as the stored
stroke map updated with the current page's live strokes, and calls
`exportAnnotatedPDF` with it — and with nothing else. -/
def handleSavePDFExport (pageSizes : List (ℝ × ℝ)) (s : AppState) :
    List (ℕ × List InkOp) :=
  let finalAnnotations := fun pg =>
    if pg = s.currentPage then s.drawingPaths else s.allPageAnnotations pg
  exportAnnotatedPDF pageSizes finalAnnotations s.pdfDimensions.1 s.pdfDimensions.2

/-- No command rasterized for a stroke by the export compositor draws
text: every branch emits stroked paths, dots, quadrilaterals or
rectangles only. -/
lemma exportPagePath_no_text (sx sy : ℝ) (path : DrawingPath) :
    ∀ op ∈ exportPagePath sx sy path, isTextOp op = false := by
  intro op hop
  simp only [exportPagePath] at hop
  split at hop
  · exact absurd hop (List.not_mem_nil op)
  · split at hop
    · split at hop
      · rcases List.mem_singleton.mp hop with rfl
        rfl
      · rcases List.mem_singleton.mp hop with rfl
        rfl
    · split at hop
      · simp only [drawCalligraphyPathToPDF] at hop
        split at hop
        · exact absurd hop (List.not_mem_nil op)
        · rw [List.mem_flatMap] at hop
          obtain ⟨i, -, hop⟩ := hop
          simp only [calligraphySegOps] at hop
          split at hop
          · exact absurd hop (List.not_mem_nil op)
          · rw [List.mem_append] at hop
            rcases hop with hop | hop
            · simp only [List.mem_cons, List.not_mem_nil, or_false] at hop
              rcases hop with rfl | rfl <;> rfl
            · split at hop
              · rcases List.mem_singleton.mp hop with rfl
                rfl
              · exact absurd hop (List.not_mem_nil op)
      · split at hop
        · simp only [drawDrawingPathToPDF] at hop
          rw [List.mem_map] at hop
          obtain ⟨s2, -, rfl⟩ := hop
          split <;> rfl
        · simp only [drawWritingPathToPDF] at hop
          split at hop
          · rcases List.mem_singleton.mp hop with rfl
            rfl
          · rcases List.mem_singleton.mp hop with rfl
            rfl

/-- C2 (amended): The export compositor rasterizes only the page's
strokes; text annotations are never rendered into the exported document —
no emitted command draws text, and the export output is unchanged by any
modification of the text-annotation state. -/
theorem claim_C2_export_no_text (pageSizes : List (ℝ × ℝ)) (s : AppState) :
    ((handleSavePDFExport pageSizes s).all fun e =>
        e.2.all fun op => !(isTextOp op)) = true
    ∧ ∀ (Tl : List TextAnnot) (T : ℕ → List TextAnnot),
        handleSavePDFExport pageSizes
            { s with textAnnots := Tl, allPageTextAnnots := T } =
          handleSavePDFExport pageSizes s := by
  constructor
  · rw [List.all_eq_true]
    intro e he
    rw [List.all_eq_true]
    intro op hop
    simp only [handleSavePDFExport, exportAnnotatedPDF, List.mem_flatMap] at he
    obtain ⟨pageNum, -, he⟩ := he
    generalize (if pageNum + 1 = s.currentPage then s.drawingPaths
        else s.allPageAnnotations (pageNum + 1)) = P at he
    split at he
    · exact absurd he (List.not_mem_nil e)
    · rcases List.mem_singleton.mp he with rfl
      simp only [exportPagePaths, List.mem_flatMap] at hop
      obtain ⟨path, -, hop⟩ := hop
      simp [exportPagePath_no_text _ _ path op hop]
  · intro Tl T
    rfl

/-- A concrete text annotation. -/
def cTextAnnot : TextAnnot :=
  { id := "text_1", text := "hello", x := 10, y := 20, fontSize := 16,
    color := "#000000", fontFamily := "Arial" }

/-- A concrete app state: page 1 holds one live two-point writing stroke
and one text annotation. -/
def cAppState : AppState :=
  { currentPage := 1, drawingPaths := [cWritePath2],
    allPageAnnotations := fun _ => [],
    textAnnots := [cTextAnnot],
    allPageTextAnnots := fun pg => if pg = 1 then [cTextAnnot] else [],
    pdfDimensions := (600, 800) }

/-- The native page sizes of the concrete one-page document. -/
def cPageSizes : List (ℝ × ℝ) := [(600, 800)]

/-- Counterexample to C2 as stated: in a concrete state whose page 1 has a
text annotation, the export still produces the page overlay (one page, one
stroked pass) but no emitted command draws text — the text annotation is
not rendered. -/
theorem claim_C2_counterexample :
    (cAppState.allPageTextAnnots 1).length = 1
    ∧ (handleSavePDFExport cPageSizes cAppState).length = 1
    ∧ ((handleSavePDFExport cPageSizes cAppState).headD (0, [])).2.length = 1
    ∧ ((handleSavePDFExport cPageSizes cAppState).all fun e =>
        e.2.all fun op => !(isTextOp op)) = true := by
  have hr1 : List.range 1 = [0] := rfl
  refine ⟨by simp [cAppState], ?_, ?_,
    (claim_C2_export_no_text cPageSizes cAppState).1⟩ <;>
  simp [handleSavePDFExport, exportAnnotatedPDF, cPageSizes, cAppState,
    exportPagePaths, exportPagePath, cWritePath2, drawWritingPathToPDF, hr1]

/-- Witness for the amended C2 at the concrete state: its export trace
draws no text, and clearing all text annotations leaves the export
unchanged. -/
theorem claim_C2_export_no_text_witness :
    ((handleSavePDFExport cPageSizes cAppState).all fun e =>
        e.2.all fun op => !(isTextOp op)) = true
    ∧ handleSavePDFExport cPageSizes
          { cAppState with textAnnots := [], allPageTextAnnots := fun _ => [] } =
        handleSavePDFExport cPageSizes cAppState := by
  obtain ⟨h1, h2⟩ := claim_C2_export_no_text cPageSizes cAppState
  exact ⟨h1, h2 [] (fun _ => [])⟩

/-! ## Sketch interchange import (sketchStorage.ts, `importSketchFromJSON`) -/

/-- A parsed JSON value (`JSON.parse` output). -/
inductive JsonValue where
  | null
  | bool (b : Bool)
  | num (x : ℝ)
  | str (s : String)
  | arr (xs : List JsonValue)
  | obj (fields : List (String × JsonValue))

/-- JavaScript property access `data.k` on a parsed value: `none` models
`undefined`. -/
def jsGetField (v : JsonValue) (k : String) : Option JsonValue :=
  match v with
  | JsonValue.obj fields => (fields.find? (fun f => f.1 == k)).map (fun f => f.2)
  | _ => Option.none

/-- JavaScript truthiness of a JSON value. -/
def jsTruthy : JsonValue → Bool
  | JsonValue.null => false
  | JsonValue.bool b => b
  | JsonValue.num x => decide (x ≠ 0)
  | JsonValue.str s => !(s.isEmpty)
  | JsonValue.arr _ => true
  | JsonValue.obj _ => true

/-- Truthiness of a possibly-absent value (`undefined` is falsy). -/
def jsTruthyOpt : Option JsonValue → Bool
  | some v => jsTruthy v
  | Option.none => false

/-- `Array.isArray` on a possibly-absent value. -/
def jsIsArrayOpt : Option JsonValue → Bool
  | some (JsonValue.arr _) => true
  | _ => false

/-- JavaScript `field || default` on a possibly-absent value. -/
def jsOrDefault (o : Option JsonValue) (d : JsonValue) : JsonValue :=
  if jsTruthyOpt o then o.getD d else d

/-- The sketch record created by the import (the `paths` elements are
stored as parsed, without element-wise validation). -/
structure ImportedSketch where
  id : String
  name : JsonValue
  paths : List JsonValue
  thumbnail : JsonValue
  backgroundColor : Option JsonValue
  createdAt : ℕ
  updatedAt : ℕ

/-- The observable outcome of an import: the storage contents afterwards
and either the new sketch or the user-facing error message. -/
structure ImportOutcome where
  store : List ImportedSketch
  result : Except String ImportedSketch

/-- The sketch record `importSketchFromJSON` (sketchStorage.ts) builds
from the parsed data once validation passed: `name` and `thumbnail` use
`||` defaults, `paths` is stored as parsed. -/
def newSketchOf (data : JsonValue) (now : ℕ) (rid : String) : ImportedSketch :=
  { id := "sketch_" ++ toString now ++ "_" ++ rid,
    name := jsOrDefault (jsGetField data "name") (JsonValue.str "Imported Sketch"),
    paths := match jsGetField data "paths" with
      | some (JsonValue.arr xs) => xs
      | _ => [],
    thumbnail := jsOrDefault (jsGetField data "thumbnail") (JsonValue.str ""),
    backgroundColor := jsGetField data "backgroundColor",
    createdAt := now, updatedAt := now }

/-- `importSketchFromJSON` (sketchStorage.ts): validates
`!data.paths || !Array.isArray(data.paths)` before building the new sketch
and writing it to storage; the thrown format error is surfaced as the
user-facing message of the surrounding catch, and nothing is written in
that case (the throw happens before `saveSketchToDB`). -/
def importSketchFromJSON (data : JsonValue) (now : ℕ) (rid : String)
    (store : List ImportedSketch) : ImportOutcome :=
  let pathsField := jsGetField data "paths"
  if !(jsTruthyOpt pathsField) || !(jsIsArrayOpt pathsField) then
    { store := store,
      result := Except.error "Failed to import sketch. Please check the file format." }
  else
    { store := store ++ [newSketchOf data now rid],
      result := Except.ok (newSketchOf data now rid) }

/-- The import guard fails exactly when the `paths` field is absent or not
an array (arrays are always truthy, so the truthiness test adds nothing
beyond absence). -/
lemma pathsField_guard (f : Option JsonValue) :
    (!(jsTruthyOpt f) || !(jsIsArrayOpt f)) = false ↔
      ∃ xs, f = some (JsonValue.arr xs) := by
  cases f with
  | none => simp [jsTruthyOpt, jsIsArrayOpt]
  | some v => cases v <;> simp [jsTruthyOpt, jsTruthy, jsIsArrayOpt]

/-- C8: Importing a sketch interchange record validates that the
stroke-list field (`paths`) is present and is a sequence before accepting
the record; if the field is missing or is not a sequence, the import fails
with a format error and aborts with no partial state change (nothing is
written to storage). -/
theorem claim_C8_import_validation (data : JsonValue) (now : ℕ) (rid : String)
    (store : List ImportedSketch) :
    ((importSketchFromJSON data now rid store).result.isOk ↔
      ∃ xs, jsGetField data "paths" = some (JsonValue.arr xs))
    ∧ ((¬ ∃ xs, jsGetField data "paths" = some (JsonValue.arr xs)) →
        importSketchFromJSON data now rid store =
          { store := store,
            result :=
              Except.error "Failed to import sketch. Please check the file format." })
    ∧ (∀ e, (importSketchFromJSON data now rid store).result = Except.error e →
        (importSketchFromJSON data now rid store).store = store) := by
  by_cases hguard : (!(jsTruthyOpt (jsGetField data "paths"))
      || !(jsIsArrayOpt (jsGetField data "paths"))) = false
  · have hex := (pathsField_guard _).mp hguard
    have hrun : importSketchFromJSON data now rid store =
        { store := store ++ [newSketchOf data now rid],
          result := Except.ok (newSketchOf data now rid) } := by
      simp only [importSketchFromJSON]
      rw [if_neg (by simp [hguard])]
    refine ⟨?_, fun hno => absurd hex hno, ?_⟩
    · rw [hrun]
      exact iff_of_true (by simp [Except.isOk, Except.toBool]) hex
    · intro e he
      rw [hrun] at he
      exact Except.noConfusion he
  · have hguard' : (!(jsTruthyOpt (jsGetField data "paths"))
        || !(jsIsArrayOpt (jsGetField data "paths"))) = true := by
      revert hguard
      cases (!(jsTruthyOpt (jsGetField data "paths"))
        || !(jsIsArrayOpt (jsGetField data "paths"))) <;> simp
    have hrun : importSketchFromJSON data now rid store =
        { store := store,
          result :=
            Except.error "Failed to import sketch. Please check the file format." } := by
      simp only [importSketchFromJSON]
      rw [if_pos hguard']
    have hnoarr : ¬ ∃ xs, jsGetField data "paths" = some (JsonValue.arr xs) := by
      rw [← pathsField_guard]
      simp [hguard']
    refine ⟨?_, fun _ => hrun, fun e _ => by rw [hrun]⟩
    rw [hrun]
    exact iff_of_false (by simp [Except.isOk, Except.toBool]) hnoarr

/-- A concrete valid interchange record. -/
def cGoodData : JsonValue :=
  JsonValue.obj [("name", JsonValue.str "My Sketch"), ("paths", JsonValue.arr [])]

/-- A concrete invalid interchange record: no `paths` field. -/
def cBadData : JsonValue :=
  JsonValue.obj [("name", JsonValue.str "My Sketch")]

/-- Witness for C8: the record with a `paths` array imports successfully;
the record without one yields exactly the format error and leaves the
storage unchanged. -/
theorem claim_C8_import_validation_witness :
    ((importSketchFromJSON cGoodData 5 "r1" []).result.isOk ↔
      ∃ xs, jsGetField cGoodData "paths" = some (JsonValue.arr xs))
    ∧ importSketchFromJSON cBadData 5 "r1" [] =
        { store := [],
          result :=
            Except.error "Failed to import sketch. Please check the file format." }
    ∧ (importSketchFromJSON cBadData 5 "r1" []).store = [] := by
  obtain ⟨h1, -, -⟩ := claim_C8_import_validation cGoodData 5 "r1" []
  obtain ⟨-, h2, h3⟩ := claim_C8_import_validation cBadData 5 "r1" []
  have hno : ¬ ∃ xs, jsGetField cBadData "paths" = some (JsonValue.arr xs) := by
    rintro ⟨xs, hxs⟩
    rw [show jsGetField cBadData "paths" = Option.none from rfl] at hxs
    exact Option.noConfusion hxs
  exact ⟨h1, h2 hno, h3 _ (by rw [h2 hno])⟩

end MyNotepad
